import Mathlib

/-!
# Verification of the DBSCAN earthquake-clustering core

This development embeds the clustering core of the repository
(`app.py`): the PointSet Normalizer, the Density Clustering Engine
(DBSCAN), the Cluster Summarizer, and the map-styling function.

The Normalizer and the Engine are invoked in `run_dbscan` through the
library calls `StandardScaler.fit_transform` and
`DBSCAN(eps, min_samples).fit_predict`; their bodies are library code
that is not part of the repository's sources, so they are modelled from
the specification (§4.1 and §4.2).  The Summarizer
(`api_stats` / `results`) and the styling logic (`create_map`) are
embedded directly from `app.py`.

Numbers are exact rationals (the spec's determinism clause assumes
exact arithmetic).  The Euclidean-distance comparison `dist(p,q) ≤ eps`
is encoded as `dist²(p,q) ≤ eps²`, which is equivalent for `eps ≥ 0`
and keeps every definition computable and decidable.  The sample
standard deviation `σ` of an axis is an exact square root of the
sample variance, so it is not rational-valued in general; definitions
take `σ` as an argument and theorems characterize it by
`0 ≤ σ ∧ σ * σ = variance`.
-/

/-- Squared Euclidean distance between two 2-d points. -/
def sqDist (p q : ℚ × ℚ) : ℚ :=
  (p.1 - q.1) * (p.1 - q.1) + (p.2 - q.2) * (p.2 - q.2)

/-- Modelled from the spec (§4.2 step 2b): `neighbors(P)` is the set of
all points (including `P` itself) whose Euclidean distance to `P` is
`≤ eps`; indices into the input list, in input order, with the
comparison taken on squares (`eps2 = eps * eps`). -/
def neighbors (ps : List (ℚ × ℚ)) (eps2 : ℚ) (i : Nat) : List Nat :=
  (List.range ps.length).filter (fun j => sqDist (ps.getD i (0, 0)) (ps.getD j (0, 0)) ≤ eps2)

/-- Modelled from the spec (§4.2 step 2d): breadth-first expansion of a
cluster `c` over an ordered work queue.  For each popped index `q`:
a noise point is relabelled to `c` (border-point absorption); an
unvisited point is marked visited, labelled `c`, and, when it is itself
a core point, the members of its neighborhood not already labelled `c`
are appended to the queue; an already-labelled point is skipped.
`-1` is the noise sentinel and `-2` means "unassigned". -/
def expand (ps : List (ℚ × ℚ)) (eps2 : ℚ) (minPts : Nat) (c : Int)
    (v : List Bool) (ls : List Int) (queue : List Nat) : List Bool × List Int :=
  match queue with
  | [] => (v, ls)
  | q :: rest =>
    if ls.getD q 0 = -1 then
      expand ps eps2 minPts c v (ls.set q c) rest
    else if hq : q < v.length ∧ v.getD q true = false then
      if minPts ≤ (neighbors ps eps2 q).length then
        expand ps eps2 minPts c (v.set q true) (ls.set q c)
          (rest ++ (neighbors ps eps2 q).filter (fun j => ls.getD j 0 ≠ c))
      else
        expand ps eps2 minPts c (v.set q true) (ls.set q c) rest
    else
      expand ps eps2 minPts c v ls rest
termination_by v.count false * (ps.length + 1) + queue.length
decreasing_by
  · simp only [List.length_cons]; omega
  · have key : ∀ (t : List Bool) (n : Nat), n < t.length → t.getD n true = false →
        (t.set n true).count false < t.count false := by
      intro t
      induction t with
      | nil => intro n h1; simp at h1
      | cons b t2 ih =>
        intro n h1 h2
        cases n with
        | zero =>
          simp only [List.getD, List.get?, Option.getD] at h2
          subst h2
          simp [List.set, List.count_cons]
        | succ m =>
          have h1' : m < t2.length := by simpa using h1
          have h2' : t2.getD m true = false := by simpa [List.getD] using h2
          have := ih m h1' h2'
          simp only [List.set, List.count_cons]
          split <;> omega
    have hlt := key v q hq.1 hq.2
    have hle : ((neighbors ps eps2 q).filter (fun j => ls.getD j 0 ≠ c)).length ≤ ps.length := by
      have h1 : ((neighbors ps eps2 q).filter (fun j => decide (ls.getD j 0 ≠ c))).length ≤
          (neighbors ps eps2 q).length :=
        List.length_filter_le _ _
      have h2 : (neighbors ps eps2 q).length ≤ ps.length := by
        have := List.length_filter_le
          (fun j => decide (sqDist (ps.getD q (0, 0)) (ps.getD j (0, 0)) ≤ eps2))
          (List.range ps.length)
        simpa [neighbors] using this
      omega
    simp only [List.length_append, List.length_cons]
    nlinarith [hlt, hle]
  · have key : ∀ (t : List Bool) (n : Nat), n < t.length → t.getD n true = false →
        (t.set n true).count false < t.count false := by
      intro t
      induction t with
      | nil => intro n h1; simp at h1
      | cons b t2 ih =>
        intro n h1 h2
        cases n with
        | zero =>
          simp only [List.getD, List.get?, Option.getD] at h2
          subst h2
          simp [List.set, List.count_cons]
        | succ m =>
          have h1' : m < t2.length := by simpa using h1
          have h2' : t2.getD m true = false := by simpa [List.getD] using h2
          have := ih m h1' h2'
          simp only [List.set, List.count_cons]
          split <;> omega
    have hlt := key v q hq.1 hq.2
    simp only [List.length_cons]
    nlinarith [hlt]
  · simp only [List.length_cons]; omega

/-- Modelled from the spec (§4.2 step 2): processing of one point `i` of
the outer loop, over the state `(visited, labels, nextClusterId)`.  A
visited point is skipped; an unvisited point is marked visited, then
labelled noise (`-1`) when its neighborhood is smaller than `minPts`,
and otherwise opens the next cluster id and triggers the breadth-first
expansion seeded with its neighborhood minus itself. -/
def dbscanStep (ps : List (ℚ × ℚ)) (eps2 : ℚ) (minPts : Nat)
    (st : List Bool × List Int × Int) (i : Nat) : List Bool × List Int × Int :=
  if st.1.getD i true then st
  else if (neighbors ps eps2 i).length < minPts then
    (st.1.set i true, st.2.1.set i (-1), st.2.2)
  else
    let r := expand ps eps2 minPts st.2.2 (st.1.set i true) (st.2.1.set i st.2.2)
      ((neighbors ps eps2 i).filter (fun j => j ≠ i))
    (r.1, r.2, st.2.2 + 1)

/-- Modelled from the spec (§4.2): the Density Clustering Engine.  Runs
the outer loop over the points in input order, starting from an
all-unvisited, all-unassigned state with first cluster id `0`, and
returns the final index-aligned label array. -/
def runDbscan (ps : List (ℚ × ℚ)) (eps : ℚ) (minPts : Nat) : List Int :=
  ((List.range ps.length).foldl (dbscanStep ps (eps * eps) minPts)
    (List.replicate ps.length false, List.replicate ps.length (-2), 0)).2.1

/-- Transcription of the reference DBSCAN procedure of spec §4.2,
step 2, on one point: written over the destructured state rather than
through projections, for comparison against `dbscanStep`. -/
def dbscanVisit (ps : List (ℚ × ℚ)) (eps2 : ℚ) (minPts : Nat)
    (st : List Bool × List Int × Int) (i : Nat) : List Bool × List Int × Int :=
  match st with
  | (visited, labels, nextId) =>
    if visited.getD i true then (visited, labels, nextId)
    else if (neighbors ps eps2 i).length < minPts then
      (visited.set i true, labels.set i (-1), nextId)
    else
      let r := expand ps eps2 minPts nextId (visited.set i true) (labels.set i nextId)
        ((neighbors ps eps2 i).filter (fun j => j ≠ i))
      (r.1, r.2, nextId + 1)

/-- Transcription of the reference DBSCAN procedure of spec §4.2:
explicit structural recursion over the list of points still to be
processed, in input order. -/
def dbscanRefGo (ps : List (ℚ × ℚ)) (eps2 : ℚ) (minPts : Nat)
    (todo : List Nat) (st : List Bool × List Int × Int) : List Bool × List Int × Int :=
  match todo with
  | [] => st
  | i :: rest => dbscanRefGo ps eps2 minPts rest (dbscanVisit ps eps2 minPts st i)

/-- The reference DBSCAN procedure of spec §4.2, end to end. -/
def dbscanRef (ps : List (ℚ × ℚ)) (eps : ℚ) (minPts : Nat) : List Int :=
  (dbscanRefGo ps (eps * eps) minPts (List.range ps.length)
    (List.replicate ps.length false, List.replicate ps.length (-2), 0)).2.1

/-- Modelled from the spec (§7): the error taxonomy of the clustering
pipeline (the `UpstreamDataError` case concerns the out-of-scope data
source adapter and is not needed here). -/
inductive PipelineError where
  | EmptyInputError
  | InvalidParameterError
deriving DecidableEq, Repr

/-- Modelled from the spec (§4.1, §4.2, §7): the clustering pipeline's
validation.  Zero points fail with `EmptyInputError` (the Normalizer
rejects the batch before the Engine runs); `eps ≤ 0` or `minPts < 1`
fail with `InvalidParameterError`; otherwise the Engine runs and its
label array is returned. -/
def runPipeline (ps : List (ℚ × ℚ)) (eps : ℚ) (minPts : Nat) :
    Except PipelineError (List Int) :=
  if ps.length = 0 then .error .EmptyInputError
  else if eps ≤ 0 ∨ minPts < 1 then .error .InvalidParameterError
  else .ok (runDbscan ps eps minPts)

/-- From `app.py` lines 127–128 (and 145–146): the distinct-cluster
count `len(set(labels)) - (1 if -1 in labels else 0)`. -/
def nClusters (ls : List Int) : Int :=
  (ls.eraseDups.length : Int) - (if (-1 : Int) ∈ ls then 1 else 0)

/-- From `app.py` line 128 (and 146): the noise count
`list(labels).count(-1)`. -/
def nNoise (ls : List Int) : Nat :=
  ls.count (-1)

/-- From `app.py` lines 150–151: the per-cluster point counts of
`value_counts` restricted to non-noise labels
(`cluster_stats[cluster_stats.index != -1]`). -/
def clusterSizes (ls : List Int) : List Nat :=
  (ls.eraseDups.filter (fun c => c ≠ -1)).map (fun c => ls.count c)

/-- From `app.py` line 151:
`cluster_stats[cluster_stats.index != -1].max() if len(cluster_stats) > 0 else 0`.
Pandas' `.max()` over an empty series is `NaN`, modelled here as
`none`; the `else 0` branch is taken only when there are no labels at
all. -/
def largestClusterSize (ls : List Int) : Option Nat :=
  if ls.length > 0 then (clusterSizes ls).max? else some 0

/-- From `app.py` lines 124–136: the `/api/stats` endpoint runs the
pipeline and either reports `(total, clusters, outliers)` or reports
the failure to the caller as an error payload (the `except` branch
returning status 500). -/
def apiStats (ps : List (ℚ × ℚ)) (eps : ℚ) (minPts : Nat) :
    Except PipelineError (Nat × Int × Nat) :=
  match runPipeline ps eps minPts with
  | .error e => .error e
  | .ok ls => .ok (ls.length, nClusters ls, nNoise ls)

/-- From `app.py` lines 52–54: the fixed color palette of `create_map`. -/
def colors : List String :=
  ["red", "blue", "green", "purple", "orange", "darkred", "lightred",
   "beige", "darkblue", "darkgreen", "cadetblue", "darkpurple", "white",
   "pink", "lightblue", "lightgreen", "gray", "black", "lightgray"]

/-- From `app.py` line 61:
`color = 'black' if cluster_id == -1 else colors[cluster_id % len(colors)]`.
Python's `%` on a positive modulus agrees with Lean's `Int.emod`; the
index is always in range, so the `getD` default is never consulted. -/
def markerColor (cluster_id : Int) : String :=
  if cluster_id = -1 then "black"
  else colors.getD (cluster_id % (colors.length : Int)).toNat "black"

/-- Sample mean of a list of rationals (`0` on the empty list, which the
pipeline rejects upstream). -/
def mean (xs : List ℚ) : ℚ :=
  xs.sum / (xs.length : ℚ)

/-- Sample variance (denominator `N`, as in the reference scaler) of a
list of rationals. -/
def variance (xs : List ℚ) : ℚ :=
  (xs.map (fun x => (x - mean xs) * (x - mean xs))).sum / (xs.length : ℚ)

/-- Modelled from the spec (§4.1): one standardized value.  `σ` is the
sample standard deviation of the axis; when it is zero (all values on
the axis identical) the standardized value is defined as `0` instead of
dividing by zero. -/
def stdVal (μ σ x : ℚ) : ℚ :=
  if σ = 0 then 0 else (x - μ) / σ

/-- Modelled from the spec (§4.1): standardization of one axis, given
that axis' sample standard deviation `σ`. -/
def standardizeAxis (xs : List ℚ) (σ : ℚ) : List ℚ :=
  xs.map (stdVal (mean xs) σ)

/-- Modelled from the spec (§4.1): the PointSet Normalizer.  Each of the
two axes is standardized independently, in input order; `σ1` and `σ2`
are the sample standard deviations of the first and second axis. -/
def standardize2 (ps : List (ℚ × ℚ)) (σ1 σ2 : ℚ) : List (ℚ × ℚ) :=
  ps.map (fun p => (stdVal (mean (ps.map Prod.fst)) σ1 p.1,
                    stdVal (mean (ps.map Prod.snd)) σ2 p.2))

/-- A point index is a core point when its `eps`-neighborhood (self
included) holds at least `minPts` points — the same test `dbscanStep`
and `expand` apply. -/
def isCore (ps : List (ℚ × ℚ)) (eps2 : ℚ) (minPts : Nat) (i : Nat) : Bool :=
  minPts ≤ (neighbors ps eps2 i).length

/-- The core points of a run, as point values in input order. -/
def corePointsList (ps : List (ℚ × ℚ)) (eps2 : ℚ) (minPts : Nat) : List (ℚ × ℚ) :=
  ((List.range ps.length).filter (isCore ps eps2 minPts)).map (fun i => ps.getD i (0, 0))

theorem expand_lengths (ps : List (ℚ × ℚ)) (eps2 : ℚ) (minPts : Nat) (c : Int)
    (v : List Bool) (ls : List Int) (queue : List Nat) :
    (expand ps eps2 minPts c v ls queue).1.length = v.length ∧
    (expand ps eps2 minPts c v ls queue).2.length = ls.length := by
  induction v, ls, queue using expand.induct ps eps2 minPts c with
  | case1 v ls => simp [expand]
  | case2 v ls q rest h ih =>
    rw [expand, if_pos h]
    simpa using ih
  | case3 v ls q rest h hq hcore ih =>
    rw [expand, if_neg h, dif_pos hq, if_pos hcore]
    simpa using ih
  | case4 v ls q rest h hq hcore ih =>
    rw [expand, if_neg h, dif_pos hq, if_neg hcore]
    simpa using ih
  | case5 v ls q rest h hq ih =>
    rw [expand, if_neg h, dif_neg hq]
    exact ih

theorem dbscanStep_lengths (ps : List (ℚ × ℚ)) (eps2 : ℚ) (minPts : Nat)
    (st : List Bool × List Int × Int) (i : Nat) :
    (dbscanStep ps eps2 minPts st i).1.length = st.1.length ∧
    (dbscanStep ps eps2 minPts st i).2.1.length = st.2.1.length := by
  unfold dbscanStep
  split
  · exact ⟨rfl, rfl⟩
  · split
    · simp
    · have h := expand_lengths ps eps2 minPts st.2.2 (st.1.set i true)
        (st.2.1.set i st.2.2) ((neighbors ps eps2 i).filter (fun j => j ≠ i))
      constructor
      · simpa using h.1
      · simpa using h.2

theorem foldl_dbscanStep_lengths (ps : List (ℚ × ℚ)) (eps2 : ℚ) (minPts : Nat) :
    ∀ (l : List Nat) (st : List Bool × List Int × Int),
      (l.foldl (dbscanStep ps eps2 minPts) st).1.length = st.1.length ∧
      (l.foldl (dbscanStep ps eps2 minPts) st).2.1.length = st.2.1.length := by
  intro l
  induction l with
  | nil => intro st; exact ⟨rfl, rfl⟩
  | cons i rest ih =>
    intro st
    have h1 := dbscanStep_lengths ps eps2 minPts st i
    have h2 := ih (dbscanStep ps eps2 minPts st i)
    simp only [List.foldl_cons]
    exact ⟨h2.1.trans h1.1, h2.2.trans h1.2⟩

/-- C8: for every input sequence of `N` points the Engine's output label
array has length exactly `N`; the array is built by updating an
index-aligned label buffer in place, so the label at index `i` is the
label of input point `i` throughout. -/
theorem label_array_index_aligned (ps : List (ℚ × ℚ)) (eps : ℚ) (minPts : Nat) :
    (runDbscan ps eps minPts).length = ps.length := by
  unfold runDbscan
  have h := foldl_dbscanStep_lengths ps (eps * eps) minPts (List.range ps.length)
    (List.replicate ps.length false, List.replicate ps.length (-2), 0)
  simpa using h.2

/-- C2: re-running the Density Clustering Engine on the identical point
sequence with identical `eps` and `minPts` yields an identical label
array.  In this embedding the Engine is a pure function over ordered
lists (no unordered-container iteration enters the result), so the two
runs are definitionally equal. -/
theorem two_runs_identical (ps : List (ℚ × ℚ)) (eps : ℚ) (minPts : Nat) :
    runDbscan ps eps minPts = runDbscan ps eps minPts := rfl

theorem dbscanVisit_eq_dbscanStep (ps : List (ℚ × ℚ)) (eps2 : ℚ) (minPts : Nat)
    (st : List Bool × List Int × Int) (i : Nat) :
    dbscanVisit ps eps2 minPts st i = dbscanStep ps eps2 minPts st i := rfl

theorem dbscanRefGo_eq_foldl (ps : List (ℚ × ℚ)) (eps2 : ℚ) (minPts : Nat) :
    ∀ (todo : List Nat) (st : List Bool × List Int × Int),
      dbscanRefGo ps eps2 minPts todo st = todo.foldl (dbscanStep ps eps2 minPts) st := by
  intro todo
  induction todo with
  | nil => intro st; rfl
  | cons i rest ih =>
    intro st
    simp only [dbscanRefGo, List.foldl_cons, dbscanVisit_eq_dbscanStep]
    exact ih _

/-- C1: on every non-empty standardized point sequence with `eps > 0`
and `minPts ≥ 1`, the Density Clustering Engine produces exactly the
label array of the reference DBSCAN procedure of spec §4.2 (input-order
processing, provisional noise with later absorption, monotonically
increasing cluster ids in discovery order, ordered breadth-first work
queue). -/
theorem engine_matches_reference (ps : List (ℚ × ℚ)) (eps : ℚ) (minPts : Nat)
    (hne : ps ≠ []) (heps : 0 < eps) (hmin : 1 ≤ minPts) :
    runDbscan ps eps minPts = dbscanRef ps eps minPts := by
  unfold runDbscan dbscanRef
  rw [dbscanRefGo_eq_foldl]

/-- Witness for `engine_matches_reference` at a concrete input. -/
theorem engine_matches_reference_witness :
    runDbscan [((0 : ℚ), (0 : ℚ))] 1 1 = dbscanRef [((0 : ℚ), (0 : ℚ))] 1 1 :=
  engine_matches_reference [((0 : ℚ), (0 : ℚ))] 1 1 (by decide) (by norm_num) (by decide)

theorem list_sum_map_div (xs : List ℚ) (c : ℚ) :
    (xs.map (fun x => x / c)).sum = xs.sum / c := by
  induction xs with
  | nil => simp
  | cons a t ih => simp [ih, add_div]

theorem list_sum_map_sub (xs : List ℚ) (c : ℚ) :
    (xs.map (fun x => x - c)).sum = xs.sum - (xs.length : ℚ) * c := by
  induction xs with
  | nil => simp
  | cons a t ih =>
    simp only [List.map_cons, List.sum_cons, ih, List.length_cons]
    push_cast
    ring

theorem list_sum_of_all_eq (xs : List ℚ) (c : ℚ) (h : ∀ x ∈ xs, x = c) :
    xs.sum = (xs.length : ℚ) * c := by
  induction xs with
  | nil => simp
  | cons a t ih =>
    have ha : a = c := h a (by simp)
    have ht := ih (fun x hx => h x (by simp [hx]))
    simp only [List.sum_cons, ht, List.length_cons, ha]
    push_cast
    ring

theorem length_cast_ne_zero (xs : List ℚ) (hne : xs ≠ []) : ((xs.length : ℚ)) ≠ 0 := by
  have : xs.length ≠ 0 := by
    intro h
    exact hne (List.length_eq_zero.mp h)
  exact_mod_cast this

theorem mean_of_all_eq (xs : List ℚ) (c : ℚ) (hne : xs ≠ []) (h : ∀ x ∈ xs, x = c) :
    mean xs = c := by
  unfold mean
  rw [list_sum_of_all_eq xs c h]
  exact mul_div_cancel_left₀ c (length_cast_ne_zero xs hne)

theorem variance_of_all_eq (xs : List ℚ) (c : ℚ) (h : ∀ x ∈ xs, x = c) :
    variance xs = 0 := by
  rcases eq_or_ne xs [] with hnil | hne
  · subst hnil; simp [variance]
  · unfold variance
    have hz : (xs.map (fun x => (x - mean xs) * (x - mean xs))).sum = 0 := by
      apply List.sum_eq_zero
      intro y hy
      rcases List.mem_map.mp hy with ⟨x, hx, hxy⟩
      have hxc : x = c := h x hx
      rw [← hxy, hxc, mean_of_all_eq xs c hne h]
      ring
    rw [hz, zero_div]

theorem sum_length_mean (xs : List ℚ) (hne : xs ≠ []) :
    xs.sum = (xs.length : ℚ) * mean xs := by
  unfold mean
  rw [mul_div_cancel₀ _ (length_cast_ne_zero xs hne)]

theorem standardizeAxis_of_ne (xs : List ℚ) (σ : ℚ) (hσ : σ ≠ 0) :
    standardizeAxis xs σ = xs.map (fun x => (x - mean xs) / σ) := by
  unfold standardizeAxis stdVal
  simp [hσ]

theorem standardizeAxis_mean_zero (xs : List ℚ) (σ : ℚ) (hne : xs ≠ []) :
    mean (standardizeAxis xs σ) = 0 := by
  rcases eq_or_ne σ 0 with hσ | hσ
  · have hz : (standardizeAxis xs σ).sum = 0 := by
      apply List.sum_eq_zero
      intro y hy
      rcases List.mem_map.mp hy with ⟨x, _, hxy⟩
      rw [← hxy]
      simp [stdVal, hσ]
    unfold mean
    rw [hz, zero_div]
  · have hrw := standardizeAxis_of_ne xs σ hσ
    have hcomp : xs.map (fun x => (x - mean xs) / σ) =
        (xs.map (fun x => x - mean xs)).map (fun y => y / σ) := by
      rw [List.map_map]
      rfl
    have hz : (standardizeAxis xs σ).sum = 0 := by
      rw [hrw, hcomp, list_sum_map_div, list_sum_map_sub, sum_length_mean xs hne]
      simp
    unfold mean
    rw [hz, zero_div]

theorem standardizeAxis_variance_one (xs : List ℚ) (σ : ℚ) (hne : xs ≠ [])
    (hσ : σ ≠ 0) (hv : σ * σ = variance xs) :
    variance (standardizeAxis xs σ) = 1 := by
  have hmean := standardizeAxis_mean_zero xs σ hne
  have hσσ : σ * σ ≠ 0 := mul_ne_zero hσ hσ
  unfold variance
  rw [hmean]
  have hlen : (standardizeAxis xs σ).length = xs.length := by
    simp [standardizeAxis]
  have hrw := standardizeAxis_of_ne xs σ hσ
  have hmaps : (standardizeAxis xs σ).map (fun y => (y - 0) * (y - 0)) =
      (xs.map (fun x => (x - mean xs) * (x - mean xs))).map (fun z => z / (σ * σ)) := by
    rw [hrw, List.map_map, List.map_map]
    apply List.map_congr_left
    intro x _
    simp only [Function.comp]
    rw [sub_zero, div_mul_div_comm]
  rw [hmaps, list_sum_map_div, hlen]
  rw [div_div, mul_comm (σ * σ) ((xs.length : ℚ)), ← div_div]
  have : (xs.map (fun x => (x - mean xs) * (x - mean xs))).sum / (xs.length : ℚ) = variance xs := rfl
  rw [this, ← hv, div_self hσσ]

theorem standardize2_map_fst (ps : List (ℚ × ℚ)) (σ1 σ2 : ℚ) :
    (standardize2 ps σ1 σ2).map Prod.fst = standardizeAxis (ps.map Prod.fst) σ1 := by
  unfold standardize2 standardizeAxis
  rw [List.map_map, List.map_map]
  rfl

theorem standardize2_map_snd (ps : List (ℚ × ℚ)) (σ1 σ2 : ℚ) :
    (standardize2 ps σ1 σ2).map Prod.snd = standardizeAxis (ps.map Prod.snd) σ2 := by
  unfold standardize2 standardizeAxis
  rw [List.map_map, List.map_map]
  rfl

/-- Counterexample to C3 as stated: on the non-empty input
`[(0,0), (0,2)]` the first axis is constant, its sample standard
deviation is `0`, and the standardized first-axis values are all `0`,
so their variance is `0`, not the claimed unit variance. -/
theorem normalizer_unit_variance_cex :
    ([((0 : ℚ), (0 : ℚ)), ((0 : ℚ), (2 : ℚ))] ≠ ([] : List (ℚ × ℚ))) ∧
    (0 : ℚ) ≤ 0 ∧
    (0 : ℚ) * 0 = variance ([((0 : ℚ), (0 : ℚ)), ((0 : ℚ), (2 : ℚ))].map Prod.fst) ∧
    (0 : ℚ) ≤ 1 ∧
    (1 : ℚ) * 1 = variance ([((0 : ℚ), (0 : ℚ)), ((0 : ℚ), (2 : ℚ))].map Prod.snd) ∧
    variance ((standardize2 [((0 : ℚ), (0 : ℚ)), ((0 : ℚ), (2 : ℚ))] 0 1).map Prod.fst) ≠ 1 := by
  refine ⟨by simp, by norm_num, ?_, by norm_num, ?_, ?_⟩ <;>
    norm_num [standardize2, variance, mean, stdVal]

/-- C3 (amended): for every non-empty input of `N` points the Normalizer
produces exactly `N` standardized points, index-aligned with the input.
On each axis independently the standardized values have zero mean, and
unit variance whenever that axis' sample standard deviation is nonzero;
on a zero-variance axis the standardized values are all `0` (spec
§4.1), so their variance is `0` rather than `1`. -/
theorem normalizer_standardizes (ps : List (ℚ × ℚ)) (σ1 σ2 : ℚ)
    (hne : ps ≠ [])
    (hs1 : 0 ≤ σ1) (hv1 : σ1 * σ1 = variance (ps.map Prod.fst))
    (hs2 : 0 ≤ σ2) (hv2 : σ2 * σ2 = variance (ps.map Prod.snd)) :
    (standardize2 ps σ1 σ2).length = ps.length ∧
    (∀ i, i < ps.length → (standardize2 ps σ1 σ2).getD i (0, 0) =
      (stdVal (mean (ps.map Prod.fst)) σ1 (ps.getD i (0, 0)).1,
       stdVal (mean (ps.map Prod.snd)) σ2 (ps.getD i (0, 0)).2)) ∧
    mean ((standardize2 ps σ1 σ2).map Prod.fst) = 0 ∧
    mean ((standardize2 ps σ1 σ2).map Prod.snd) = 0 ∧
    (σ1 ≠ 0 → variance ((standardize2 ps σ1 σ2).map Prod.fst) = 1) ∧
    (σ2 ≠ 0 → variance ((standardize2 ps σ1 σ2).map Prod.snd) = 1) := by
  have hf : ps.map Prod.fst ≠ [] := by
    intro h
    exact hne (List.map_eq_nil.mp h)
  have hs : ps.map Prod.snd ≠ [] := by
    intro h
    exact hne (List.map_eq_nil.mp h)
  refine ⟨by simp [standardize2], ?_, ?_, ?_, ?_, ?_⟩
  · intro i hi
    unfold standardize2
    rw [List.getD_eq_getElem?_getD, List.getElem?_map, List.getD_eq_getElem?_getD,
      List.getElem?_eq_getElem hi]
    rfl
  · rw [standardize2_map_fst]
    exact standardizeAxis_mean_zero _ _ hf
  · rw [standardize2_map_snd]
    exact standardizeAxis_mean_zero _ _ hs
  · intro h
    rw [standardize2_map_fst]
    exact standardizeAxis_variance_one _ _ hf h hv1
  · intro h
    rw [standardize2_map_snd]
    exact standardizeAxis_variance_one _ _ hs h hv2

/-- Witness for `normalizer_standardizes` at a concrete input. -/
theorem normalizer_standardizes_witness :
    mean ((standardize2 [((0 : ℚ), (0 : ℚ)), ((2 : ℚ), (2 : ℚ))] 1 1).map Prod.fst) = 0 ∧
    variance ((standardize2 [((0 : ℚ), (0 : ℚ)), ((2 : ℚ), (2 : ℚ))] 1 1).map Prod.fst) = 1 :=
  ⟨(normalizer_standardizes [((0 : ℚ), (0 : ℚ)), ((2 : ℚ), (2 : ℚ))] 1 1 (by simp)
      (by norm_num) (by norm_num [variance, mean]) (by norm_num)
      (by norm_num [variance, mean])).2.2.1,
   (normalizer_standardizes [((0 : ℚ), (0 : ℚ)), ((2 : ℚ), (2 : ℚ))] 1 1 (by simp)
      (by norm_num) (by norm_num [variance, mean]) (by norm_num)
      (by norm_num [variance, mean])).2.2.2.2.1 (by norm_num)⟩

theorem standardizeAxis_const_zero (xs : List ℚ) (c σ : ℚ)
    (hall : ∀ x ∈ xs, x = c) (hv : σ * σ = variance xs) :
    standardizeAxis xs σ = List.replicate xs.length 0 := by
  have hvar0 : variance xs = 0 := variance_of_all_eq _ c hall
  have hσ0 : σ = 0 := mul_self_eq_zero.mp (by rw [hv, hvar0])
  rw [hσ0]
  unfold standardizeAxis stdVal
  simp only [if_pos rfl]
  refine List.eq_replicate.mpr ⟨by simp, ?_⟩
  intro b hb
  rcases List.mem_map.mp hb with ⟨p, _, hpb⟩
  exact hpb.symm

/-- C4: when every input point shares the same value on one axis —
either of the two — that axis' sample standard deviation is zero, the
Normalizer is total (no division is attempted), and it standardizes
that axis to `0` for every point; stated for each of the two axes. -/
theorem zero_variance_axis_zero (ps : List (ℚ × ℚ)) (c σ1 σ2 : ℚ)
    (hne : ps ≠ []) :
    ((∀ p ∈ ps, p.1 = c) → σ1 * σ1 = variance (ps.map Prod.fst) →
      (standardize2 ps σ1 σ2).map Prod.fst = List.replicate ps.length 0) ∧
    ((∀ p ∈ ps, p.2 = c) → σ2 * σ2 = variance (ps.map Prod.snd) →
      (standardize2 ps σ1 σ2).map Prod.snd = List.replicate ps.length 0) := by
  constructor
  · intro hc hv1
    have hall : ∀ x ∈ ps.map Prod.fst, x = c := by
      intro x hx
      rcases List.mem_map.mp hx with ⟨p, hp, hpx⟩
      rw [← hpx]
      exact hc p hp
    rw [standardize2_map_fst, standardizeAxis_const_zero _ c σ1 hall hv1, List.length_map]
  · intro hc hv2
    have hall : ∀ x ∈ ps.map Prod.snd, x = c := by
      intro x hx
      rcases List.mem_map.mp hx with ⟨p, hp, hpx⟩
      rw [← hpx]
      exact hc p hp
    rw [standardize2_map_snd, standardizeAxis_const_zero _ c σ2 hall hv2, List.length_map]

/-- Witness for `zero_variance_axis_zero`, exercising both axes: one
input constant on the first axis, one constant on the second. -/
theorem zero_variance_axis_zero_witness :
    (standardize2 [((3 : ℚ), (0 : ℚ)), ((3 : ℚ), (1 : ℚ))] 0 1).map Prod.fst =
      List.replicate 2 0 ∧
    (standardize2 [((0 : ℚ), (5 : ℚ)), ((1 : ℚ), (5 : ℚ))] 1 0).map Prod.snd =
      List.replicate 2 0 :=
  ⟨(zero_variance_axis_zero [((3 : ℚ), (0 : ℚ)), ((3 : ℚ), (1 : ℚ))] 3 0 1 (by simp)).1
      (by norm_num) (by norm_num [variance, mean]),
   (zero_variance_axis_zero [((0 : ℚ), (5 : ℚ)), ((1 : ℚ), (5 : ℚ))] 5 1 0 (by simp)).2
      (by norm_num) (by norm_num [variance, mean])⟩

/-- C5: on the empty input the pipeline fails with the distinct error
value `EmptyInputError`; the `/api/stats` endpoint propagates exactly
that error to the caller instead of returning a result payload, and
clustering is never attempted on zero points. -/
theorem empty_input_rejected (eps : ℚ) (minPts : Nat) :
    runPipeline [] eps minPts = .error .EmptyInputError ∧
    apiStats [] eps minPts = .error .EmptyInputError :=
  ⟨rfl, rfl⟩

/-- C6: on any non-empty input, `eps ≤ 0` or `minPts < 1` makes the
pipeline fail with the distinct error value `InvalidParameterError`,
with no retry; for `eps > 0` and `minPts ≥ 1` no failure occurs and the
Engine's label array is returned. -/
theorem invalid_parameters_rejected (ps : List (ℚ × ℚ)) (eps : ℚ) (minPts : Nat)
    (hne : ps ≠ []) :
    ((eps ≤ 0 ∨ minPts < 1) → runPipeline ps eps minPts = .error .InvalidParameterError) ∧
    (0 < eps → 1 ≤ minPts → runPipeline ps eps minPts = .ok (runDbscan ps eps minPts)) := by
  have hlen : ¬ ps.length = 0 := fun h => hne (List.length_eq_zero.mp h)
  constructor
  · intro h
    unfold runPipeline
    rw [if_neg hlen, if_pos h]
  · intro h1 h2
    have hcond : ¬ (eps ≤ 0 ∨ minPts < 1) := by
      push_neg
      exact ⟨h1, h2⟩
    unfold runPipeline
    rw [if_neg hlen, if_neg hcond]

/-- Witness for `invalid_parameters_rejected` at concrete inputs. -/
theorem invalid_parameters_rejected_witness :
    runPipeline [((0 : ℚ), (0 : ℚ))] 0 5 = .error .InvalidParameterError ∧
    runPipeline [((0 : ℚ), (0 : ℚ))] 1 1 = .ok (runDbscan [((0 : ℚ), (0 : ℚ))] 1 1) :=
  ⟨(invalid_parameters_rejected [((0 : ℚ), (0 : ℚ))] 0 5 (by simp)).1 (Or.inl le_rfl),
   (invalid_parameters_rejected [((0 : ℚ), (0 : ℚ))] 1 1 (by simp)).2 (by norm_num) le_rfl⟩

/-- C7: evaluation of the Summarizer at the failing input `[-1]` (one
point, labelled noise — e.g. a single input point with `minPts = 5`).
The cluster and noise counts are correct, but
`cluster_stats[cluster_stats.index != -1].max()` is taken over an
empty series, which is pandas `NaN` (modelled `none`), while spec §4.3
requires `largestClusterSize = 0` when no clusters exist; the `else 0`
default is reached only on an empty label list. -/
theorem summarizer_nan_on_all_noise :
    nClusters [(-1 : Int)] = 0 ∧
    nNoise [(-1 : Int)] = 1 ∧
    largestClusterSize [(-1 : Int)] = none ∧
    largestClusterSize ([] : List Int) = some 0 := by
  decide

theorem map_getD_range {α : Type} (l : List α) (d : α) :
    (List.range l.length).map (fun i => l.getD i d) = l := by
  induction l with
  | nil => simp
  | cons a t ih =>
    rw [List.length_cons, List.range_succ_eq_map, List.map_cons, List.map_map]
    have h2 : (List.range t.length).map ((fun i => (a :: t).getD i d) ∘ Nat.succ)
        = (List.range t.length).map (fun i => t.getD i d) := by
      apply List.map_congr_left
      intro i _
      rfl
    rw [List.getD_cons_zero, h2, ih]

theorem neighbors_length_eq_countP (ps : List (ℚ × ℚ)) (eps2 : ℚ) (i : Nat) :
    (neighbors ps eps2 i).length =
      ps.countP (fun q => sqDist (ps.getD i (0, 0)) q ≤ eps2) := by
  unfold neighbors
  rw [← List.countP_eq_length_filter]
  have h1 : (List.range ps.length).countP
      (fun j => decide (sqDist (ps.getD i (0, 0)) (ps.getD j (0, 0)) ≤ eps2)) =
      ((List.range ps.length).map (fun j => ps.getD j (0, 0))).countP
      (fun q => decide (sqDist (ps.getD i (0, 0)) q ≤ eps2)) := by
    rw [List.countP_map]
    rfl
  rw [h1, map_getD_range]

theorem mem_corePointsList (ps : List (ℚ × ℚ)) (eps2 : ℚ) (m : Nat) (p : ℚ × ℚ) :
    p ∈ corePointsList ps eps2 m ↔
      p ∈ ps ∧ m ≤ ps.countP (fun q => sqDist p q ≤ eps2) := by
  unfold corePointsList
  constructor
  · intro hp
    rcases List.mem_map.mp hp with ⟨i, hi, hip⟩
    rcases List.mem_filter.mp hi with ⟨hirange, hcore⟩
    have hilt : i < ps.length := List.mem_range.mp hirange
    have hmem : ps.getD i (0, 0) ∈ ps := by
      rw [List.getD_eq_getElem?_getD, List.getElem?_eq_getElem hilt]
      exact List.getElem_mem hilt
    have hcnt : m ≤ (neighbors ps eps2 i).length := by
      simpa [isCore] using hcore
    rw [neighbors_length_eq_countP] at hcnt
    rw [← hip]
    exact ⟨hmem, hcnt⟩
  · rintro ⟨hmem, hcnt⟩
    rcases List.mem_iff_get.mp hmem with ⟨⟨i, hilt⟩, hget⟩
    have hgetD : ps.getD i (0, 0) = p := by
      rw [List.getD_eq_getElem?_getD, List.getElem?_eq_getElem hilt]
      exact hget
    refine List.mem_map.mpr ⟨i, List.mem_filter.mpr ⟨List.mem_range.mpr hilt, ?_⟩, hgetD⟩
    have : m ≤ (neighbors ps eps2 i).length := by
      rw [neighbors_length_eq_countP, hgetD]
      exact hcnt
    simpa [isCore] using this

/-- C9: the set of core points — points whose `eps`-neighborhood in
standardized space holds at least `minPts` points, themselves included,
which is exactly the density test the clustering run applies — is
invariant under any permutation of the input order: membership in the
core-point list is the same for both orders (cluster-id numbering may
still differ). -/
theorem core_points_permutation_invariant (ps qs : List (ℚ × ℚ)) (eps2 : ℚ) (m : Nat)
    (hperm : ps.Perm qs) (p : ℚ × ℚ) :
    p ∈ corePointsList ps eps2 m ↔ p ∈ corePointsList qs eps2 m := by
  rw [mem_corePointsList, mem_corePointsList, hperm.mem_iff,
    hperm.countP_eq (fun q => decide (sqDist p q ≤ eps2))]

/-- Witness for `core_points_permutation_invariant` at a concrete
transposition. -/
theorem core_points_permutation_invariant_witness :
    (((0 : ℚ), (0 : ℚ)) ∈ corePointsList [((1 : ℚ), (0 : ℚ)), ((0 : ℚ), (0 : ℚ))] 2 2 ↔
     ((0 : ℚ), (0 : ℚ)) ∈ corePointsList [((0 : ℚ), (0 : ℚ)), ((1 : ℚ), (0 : ℚ))] 2 2) :=
  core_points_permutation_invariant _ _ 2 2
    (List.Perm.swap ((0 : ℚ), (0 : ℚ)) ((1 : ℚ), (0 : ℚ)) []) ((0 : ℚ), (0 : ℚ))

/-- C10: the map styling assigns `'black'` to the noise sentinel `-1`
and `colors[label % 19]` to every other label; the palette has 19
entries with `'black'` at index 17, so every cluster id congruent to 17
modulo 19 is drawn in the same color as noise. -/
theorem noise_cluster_color_collision :
    markerColor (-1) = "black" ∧
    colors.length = 19 ∧
    colors.getD 17 "red" = "black" ∧
    (∀ l : Int, 0 ≤ l → markerColor l = colors.getD (l % 19).toNat "black") ∧
    (∀ l : Int, 0 ≤ l → l % 19 = 17 → markerColor l = markerColor (-1)) := by
  refine ⟨rfl, rfl, rfl, ?_, ?_⟩
  · intro l hl
    have hne : l ≠ -1 := by omega
    unfold markerColor
    rw [if_neg hne]
    rfl
  · intro l hl hmod
    have hne : l ≠ -1 := by omega
    unfold markerColor
    rw [if_neg hne]
    show colors.getD (l % (19 : Int)).toNat "black" = "black"
    rw [hmod]
    rfl

/-- Witness for `noise_cluster_color_collision`: cluster 36 is drawn in
the noise color. -/
theorem noise_cluster_color_collision_witness :
    markerColor 36 = markerColor (-1) :=
  noise_cluster_color_collision.2.2.2.2 36 (by norm_num) (by decide)
